import Mathlib

/-!
Shallow embedding of `src/libro_diario_refactor.py`, a minimal in-memory
accounting ledger (`LibroDiario`).  Monetary amounts are modelled as
rationals, Python exceptions as an `Except` result, and the mutable list
of transactions as explicit state passing.
-/

namespace SistemaContable

/-- One stored transaction record, mirroring the dictionary appended by
`LibroDiario.agregar_transaccion` in the source. -/
structure Transaccion where
  fecha : String
  descripcion : String
  monto : ℚ
  tipo : String
deriving DecidableEq, Repr

/-- Ledger state: the `self.transacciones` list of `LibroDiario.__init__`. -/
structure LibroDiario where
  transacciones : List Transaccion
deriving DecidableEq, Repr

/-- The two `ValueError` sites of `agregar_transaccion`, distinguished by
their messages: the amount error of line 32 and the kind error of line 36. -/
inductive ValidationError where
  | invalidAmount
  | invalidKind
deriving DecidableEq, Repr

/-- `LibroDiario.__init__`: the ledger starts with an empty list. -/
def LibroDiario.init : LibroDiario := ⟨[]⟩

/-- The list `["ingreso", "egreso"]` of line 35 of the source. -/
def tiposValidos : List String := ["ingreso", "egreso"]

/-- Python's `str.lower()` as used on line 34: lowercase the string character
by character (same behavior as `String.toLower`, defined over the character
list so that the kernel can evaluate it). -/
def aMinusculas (s : String) : String := ⟨s.data.map Char.toLower⟩

/-- `LibroDiario.agregar_transaccion`: validate `monto`, then the lowercased
`tipo`, then append the record with the normalized kind. -/
def LibroDiario.agregar_transaccion (l : LibroDiario) (fecha descripcion : String)
    (monto : ℚ) (tipo : String) : Except ValidationError LibroDiario :=
  if monto ≤ 0 then
    .error .invalidAmount
  else
    let tipo_normalizado := aMinusculas tipo
    if tipo_normalizado ∉ tiposValidos then
      .error .invalidKind
    else
      .ok ⟨l.transacciones ++ [⟨fecha, descripcion, monto, tipo_normalizado⟩]⟩

/-- The summary dictionary returned by `obtener_resumen`. -/
structure Resumen where
  total_ingresos : ℚ
  total_egresos : ℚ
  balance_neto : ℚ
deriving DecidableEq, Repr

/-- One iteration of the `for` loop of `obtener_resumen` (lines 56–60):
income amounts go to the first accumulator, everything else to the second. -/
def resumenPaso (acc : ℚ × ℚ) (t : Transaccion) : ℚ × ℚ :=
  if t.tipo = "ingreso" then (acc.1 + t.monto, acc.2) else (acc.1, acc.2 + t.monto)

/-- `LibroDiario.obtener_resumen`: fold the loop over the stored list starting
from `(0, 0)` and return the three totals. -/
def LibroDiario.obtener_resumen (l : LibroDiario) : Resumen :=
  let acc := l.transacciones.foldl resumenPaso (0, 0)
  { total_ingresos := acc.1, total_egresos := acc.2, balance_neto := acc.1 - acc.2 }

/-- Ledgers reachable from the empty ledger by successful
`agregar_transaccion` calls. -/
inductive Alcanzable : LibroDiario → Prop where
  | inicial : Alcanzable LibroDiario.init
  | paso {l l' : LibroDiario} (f d : String) (m : ℚ) (tp : String) :
      Alcanzable l → l.agregar_transaccion f d m tp = .ok l' → Alcanzable l'

/-- Contribution of one transaction to the income accumulator. -/
def ingresoParte (t : Transaccion) : ℚ := if t.tipo = "ingreso" then t.monto else 0

/-- Contribution of one transaction to the expense accumulator. -/
def egresoParte (t : Transaccion) : ℚ := if t.tipo = "ingreso" then 0 else t.monto

lemma foldl_resumenPaso (ts : List Transaccion) (a b : ℚ) :
    ts.foldl resumenPaso (a, b) =
      (a + (ts.map ingresoParte).sum, b + (ts.map egresoParte).sum) := by
  induction ts generalizing a b with
  | nil => simp
  | cons t ts ih =>
    simp only [List.foldl_cons, List.map_cons, List.sum_cons, resumenPaso,
      ingresoParte, egresoParte]
    split <;> rw [ih] <;> ring_nf

lemma obtener_resumen_eq (l : LibroDiario) :
    l.obtener_resumen =
      ⟨(l.transacciones.map ingresoParte).sum, (l.transacciones.map egresoParte).sum,
        (l.transacciones.map ingresoParte).sum - (l.transacciones.map egresoParte).sum⟩ := by
  simp only [LibroDiario.obtener_resumen]
  rw [foldl_resumenPaso]
  simp

lemma agregar_eq_ok (l : LibroDiario) (f d : String) (m : ℚ) (tp : String)
    (hm : 0 < m) (ht : aMinusculas tp ∈ tiposValidos) :
    l.agregar_transaccion f d m tp =
      .ok ⟨l.transacciones ++ [⟨f, d, m, aMinusculas tp⟩]⟩ := by
  simp [LibroDiario.agregar_transaccion, not_le.mpr hm, ht]

lemma agregar_ok_inv {l l' : LibroDiario} {f d : String} {m : ℚ} {tp : String}
    (h : l.agregar_transaccion f d m tp = .ok l') :
    0 < m ∧ aMinusculas tp ∈ tiposValidos ∧
      l'.transacciones = l.transacciones ++ [⟨f, d, m, aMinusculas tp⟩] := by
  simp only [LibroDiario.agregar_transaccion] at h
  split at h
  · exact absurd h (by simp)
  · next hm =>
    split at h
    · exact absurd h (by simp)
    · next ht =>
      refine ⟨lt_of_not_le hm, not_not.mp ht, ?_⟩
      injection h with h
      rw [← h]

lemma invariante_de_alcanzable {l : LibroDiario} (h : Alcanzable l) :
    ∀ t ∈ l.transacciones, 0 < t.monto ∧ t.tipo ∈ tiposValidos := by
  induction h with
  | inicial => simp [LibroDiario.init]
  | paso f d m tp _ hok ih =>
    obtain ⟨hm, ht, heq⟩ := agregar_ok_inv hok
    intro t htm
    rw [heq] at htm
    rcases List.mem_append.mp htm with h1 | h2
    · exact ih t h1
    · simp only [List.mem_singleton] at h2
      subst h2
      exact ⟨hm, ht⟩

lemma sum_ingresoParte (ts : List Transaccion) :
    (ts.map ingresoParte).sum =
      ((ts.filter fun t => t.tipo = "ingreso").map Transaccion.monto).sum := by
  induction ts with
  | nil => simp
  | cons t ts ih =>
    by_cases h : t.tipo = "ingreso" <;>
      simp [ingresoParte, h, ih, List.filter_cons]

lemma sum_egresoParte (ts : List Transaccion) :
    (ts.map egresoParte).sum =
      ((ts.filter fun t => ¬ t.tipo = "ingreso").map Transaccion.monto).sum := by
  induction ts with
  | nil => simp
  | cons t ts ih =>
    by_cases h : t.tipo = "ingreso" <;>
      simp [egresoParte, h, ih, List.filter_cons]

lemma sum_egresoParte_de_validos (ts : List Transaccion)
    (h : ∀ t ∈ ts, t.tipo ∈ tiposValidos) :
    (ts.map egresoParte).sum =
      ((ts.filter fun t => t.tipo = "egreso").map Transaccion.monto).sum := by
  induction ts with
  | nil => simp
  | cons t ts ih =>
    have ht := h t (by simp)
    have hrest : ∀ u ∈ ts, u.tipo ∈ tiposValidos := fun u hu => h u (by simp [hu])
    simp only [tiposValidos, List.mem_cons, List.not_mem_nil, or_false] at ht
    rcases ht with h1 | h1 <;>
      simp [egresoParte, h1, ih hrest, List.filter_cons]

lemma ingresoParte_add_egresoParte (t : Transaccion) :
    ingresoParte t + egresoParte t = t.monto := by
  unfold ingresoParte egresoParte
  split <;> ring

lemma sum_partes (ts : List Transaccion) :
    (ts.map ingresoParte).sum + (ts.map egresoParte).sum =
      (ts.map Transaccion.monto).sum := by
  induction ts with
  | nil => simp
  | cons t ts ih =>
    simp only [List.map_cons, List.sum_cons]
    rw [← ih, ← ingresoParte_add_egresoParte t]
    ring

lemma ingresoParte_nonneg {t : Transaccion} (h : 0 ≤ t.monto) : 0 ≤ ingresoParte t := by
  unfold ingresoParte
  split <;> simp [h]

lemma egresoParte_nonneg {t : Transaccion} (h : 0 ≤ t.monto) : 0 ≤ egresoParte t := by
  unfold egresoParte
  split <;> simp [h]

/-- One caller-supplied input to `agregar_transaccion`. -/
structure Entrada where
  fecha : String
  descripcion : String
  monto : ℚ
  tipo : String
deriving DecidableEq, Repr

/-- The record that `agregar_transaccion` stores for a valid input. -/
def entradaATransaccion (e : Entrada) : Transaccion :=
  ⟨e.fecha, e.descripcion, e.monto, aMinusculas e.tipo⟩

/-- Perform a sequence of `agregar_transaccion` calls in order, leaving the
ledger unchanged on a validation error (as a caller catching the error would). -/
def LibroDiario.agregarVarias : LibroDiario → List Entrada → LibroDiario
  | l, [] => l
  | l, e :: es =>
    match l.agregar_transaccion e.fecha e.descripcion e.monto e.tipo with
    | .ok l' => l'.agregarVarias es
    | .error _ => l.agregarVarias es

lemma agregarVarias_de_validas (es : List Entrada) (l : LibroDiario)
    (h : ∀ e ∈ es, 0 < e.monto ∧ aMinusculas e.tipo ∈ tiposValidos) :
    (l.agregarVarias es).transacciones =
      l.transacciones ++ es.map entradaATransaccion := by
  induction es generalizing l with
  | nil => simp [LibroDiario.agregarVarias]
  | cons e es ih =>
    obtain ⟨hm, ht⟩ := h e (by simp)
    have hrest : ∀ u ∈ es, 0 < u.monto ∧ aMinusculas u.tipo ∈ tiposValidos :=
      fun u hu => h u (by simp [hu])
    simp only [LibroDiario.agregarVarias, agregar_eq_ok l e.fecha e.descripcion e.monto e.tipo hm ht]
    rw [ih _ hrest]
    simp [entradaATransaccion]

/-- C1: on every ledger state (whose stored transactions carry one of the two
recognized kinds, as every spec-level `Transaction` does), `obtener_resumen`
returns `total_ingresos` equal to the sum of `monto` over the stored
transactions of kind `ingreso`, `total_egresos` equal to the sum over those of
kind `egreso`, and `balance_neto` equal to their difference; the ledger is not
mutated, which the embedding renders by `obtener_resumen` being a pure
function of the state. -/
theorem obtener_resumen_correcto (l : LibroDiario)
    (h : ∀ t ∈ l.transacciones, t.tipo ∈ tiposValidos) :
    l.obtener_resumen.total_ingresos =
      ((l.transacciones.filter fun t => t.tipo = "ingreso").map Transaccion.monto).sum ∧
    l.obtener_resumen.total_egresos =
      ((l.transacciones.filter fun t => t.tipo = "egreso").map Transaccion.monto).sum ∧
    l.obtener_resumen.balance_neto =
      l.obtener_resumen.total_ingresos - l.obtener_resumen.total_egresos := by
  rw [obtener_resumen_eq]
  exact ⟨sum_ingresoParte _, sum_egresoParte_de_validos _ h, rfl⟩

theorem obtener_resumen_correcto_witness :
    (LibroDiario.mk [⟨"2025-01-28", "Venta de servicios", 500, "ingreso"⟩,
        ⟨"2025-01-29", "Pago de luz", 241 / 2, "egreso"⟩]).obtener_resumen.total_ingresos =
      (((LibroDiario.mk [⟨"2025-01-28", "Venta de servicios", 500, "ingreso"⟩,
        ⟨"2025-01-29", "Pago de luz", 241 / 2, "egreso"⟩]).transacciones.filter
          fun t => t.tipo = "ingreso").map Transaccion.monto).sum ∧
    (LibroDiario.mk [⟨"2025-01-28", "Venta de servicios", 500, "ingreso"⟩,
        ⟨"2025-01-29", "Pago de luz", 241 / 2, "egreso"⟩]).obtener_resumen.total_egresos =
      (((LibroDiario.mk [⟨"2025-01-28", "Venta de servicios", 500, "ingreso"⟩,
        ⟨"2025-01-29", "Pago de luz", 241 / 2, "egreso"⟩]).transacciones.filter
          fun t => t.tipo = "egreso").map Transaccion.monto).sum ∧
    (LibroDiario.mk [⟨"2025-01-28", "Venta de servicios", 500, "ingreso"⟩,
        ⟨"2025-01-29", "Pago de luz", 241 / 2, "egreso"⟩]).obtener_resumen.balance_neto =
      (LibroDiario.mk [⟨"2025-01-28", "Venta de servicios", 500, "ingreso"⟩,
        ⟨"2025-01-29", "Pago de luz", 241 / 2, "egreso"⟩]).obtener_resumen.total_ingresos -
      (LibroDiario.mk [⟨"2025-01-28", "Venta de servicios", 500, "ingreso"⟩,
        ⟨"2025-01-29", "Pago de luz", 241 / 2, "egreso"⟩]).obtener_resumen.total_egresos :=
  obtener_resumen_correcto _ (by decide)

/-- C2: for every ledger state and every `monto ≤ 0`, with arbitrary date,
description and kind strings, `agregar_transaccion` fails with the amount
error; the error result carries no new state, so the stored sequence is
unchanged. -/
theorem agregar_monto_invalido (l : LibroDiario) (f d : String) (m : ℚ) (tp : String)
    (h : m ≤ 0) : l.agregar_transaccion f d m tp = .error .invalidAmount := by
  simp [LibroDiario.agregar_transaccion, h]

theorem agregar_monto_invalido_witness :
    LibroDiario.init.agregar_transaccion "d" "desc" (-10) "ingreso" =
      .error .invalidAmount :=
  agregar_monto_invalido LibroDiario.init "d" "desc" (-10) "ingreso" (by norm_num)

/-- C3: for every ledger state, positive amount and kind string whose
lowercasing is not `ingreso` or `egreso`, `agregar_transaccion` fails with the
kind error (and the state is unchanged); conversely a kind whose lowercasing
is recognized passes the kind check and the call succeeds. -/
theorem agregar_tipo_invalido (l : LibroDiario) (f d : String) (m : ℚ) (tp : String)
    (hm : 0 < m) :
    (aMinusculas tp ∉ tiposValidos →
      l.agregar_transaccion f d m tp = .error .invalidKind) ∧
    (aMinusculas tp ∈ tiposValidos →
      l.agregar_transaccion f d m tp =
        .ok ⟨l.transacciones ++ [⟨f, d, m, aMinusculas tp⟩]⟩) := by
  refine ⟨fun ht => ?_, fun ht => agregar_eq_ok l f d m tp hm ht⟩
  simp [LibroDiario.agregar_transaccion, not_le.mpr hm, ht]

theorem agregar_tipo_invalido_witness :
    LibroDiario.init.agregar_transaccion "d" "desc" 10 "donation" =
      .error .invalidKind ∧
    LibroDiario.init.agregar_transaccion "d" "desc" 10 "INGRESO" =
      .ok ⟨[⟨"d", "desc", 10, "ingreso"⟩]⟩ := by
  constructor
  · exact (agregar_tipo_invalido LibroDiario.init "d" "desc" 10 "donation"
      (by norm_num)).1 (by decide)
  · rw [(agregar_tipo_invalido LibroDiario.init "d" "desc" 10 "INGRESO"
      (by norm_num)).2 (by decide)]
    simp [LibroDiario.init, show aMinusculas "INGRESO" = "ingreso" from by decide]

/-- C4: the amount check precedes the kind check: when the amount is
nonpositive and the kind is unrecognized, the error is the amount error. -/
theorem monto_antes_de_tipo (l : LibroDiario) (f d : String) (m : ℚ) (tp : String)
    (hm : m ≤ 0) (ht : aMinusculas tp ∉ tiposValidos) :
    l.agregar_transaccion f d m tp = .error .invalidAmount := by
  simp [LibroDiario.agregar_transaccion, hm]

theorem monto_antes_de_tipo_witness :
    LibroDiario.init.agregar_transaccion "d" "desc" (-5) "donation" =
      .error .invalidAmount :=
  monto_antes_de_tipo LibroDiario.init "d" "desc" (-5) "donation"
    (by norm_num) (by decide)

/-- C5: for every ledger state and every valid input (positive amount and
recognized kind up to case), `agregar_transaccion` succeeds and the stored
sequence becomes the old one with exactly one record appended at the end,
carrying the given date, description and amount and the kind lowercased. -/
theorem agregar_valido (l : LibroDiario) (f d : String) (m : ℚ) (tp : String)
    (hm : 0 < m) (ht : aMinusculas tp ∈ tiposValidos) :
    l.agregar_transaccion f d m tp =
      .ok ⟨l.transacciones ++ [⟨f, d, m, aMinusculas tp⟩]⟩ :=
  agregar_eq_ok l f d m tp hm ht

theorem agregar_valido_witness :
    LibroDiario.init.agregar_transaccion "2025-01-29" "Pago de luz" 7 "EGRESO" =
      .ok ⟨[⟨"2025-01-29", "Pago de luz", 7, "egreso"⟩]⟩ := by
  rw [agregar_valido LibroDiario.init "2025-01-29" "Pago de luz" 7 "EGRESO"
    (by norm_num) (by decide)]
  simp [LibroDiario.init, show aMinusculas "EGRESO" = "egreso" from by decide]

/-- C6: every ledger reachable from the empty one satisfies the invariant that
each stored transaction has positive amount and a lowercased recognized kind;
moreover every successful call only appends — the new sequence is the old
sequence followed by one new record, so stored records are never mutated. -/
theorem invariante_append_only :
    (∀ l, Alcanzable l → ∀ t ∈ l.transacciones,
      0 < t.monto ∧ t.tipo ∈ tiposValidos) ∧
    (∀ (l : LibroDiario) (f d : String) (m : ℚ) (tp : String) (l' : LibroDiario),
      l.agregar_transaccion f d m tp = .ok l' →
        l'.transacciones = l.transacciones ++ [⟨f, d, m, aMinusculas tp⟩]) :=
  ⟨fun _ h => invariante_de_alcanzable h,
   fun _ _ _ _ _ _ h => (agregar_ok_inv h).2.2⟩

theorem invariante_append_only_witness :
    0 < (Transaccion.mk "d" "x" 10 "ingreso").monto ∧
      (Transaccion.mk "d" "x" 10 "ingreso").tipo ∈ tiposValidos :=
  invariante_append_only.1 (LibroDiario.mk [⟨"d", "x", 10, "ingreso"⟩])
    (Alcanzable.paso "d" "x" 10 "INGRESO" Alcanzable.inicial (by
      rw [agregar_eq_ok LibroDiario.init "d" "x" 10 "INGRESO" (by norm_num) (by decide)]
      simp [LibroDiario.init, show aMinusculas "INGRESO" = "ingreso" from by decide]))
    (Transaccion.mk "d" "x" 10 "ingreso") (by decide)

/-- C7: on the freshly constructed (empty) ledger, `obtener_resumen` returns
zero for all three totals; `obtener_resumen` is a total function of the state
in this embedding, so it cannot fail on any ledger. -/
theorem resumen_vacio : LibroDiario.init.obtener_resumen = ⟨0, 0, 0⟩ := by
  rw [obtener_resumen_eq]
  simp [LibroDiario.init]

/-- C8: order-independence — two permutations of one list of valid inputs,
added from the empty ledger, yield the same summary. -/
theorem resumen_independiente_del_orden (es₁ es₂ : List Entrada)
    (hv : ∀ e ∈ es₁, 0 < e.monto ∧ aMinusculas e.tipo ∈ tiposValidos)
    (hp : es₁.Perm es₂) :
    (LibroDiario.init.agregarVarias es₁).obtener_resumen =
      (LibroDiario.init.agregarVarias es₂).obtener_resumen := by
  have hv₂ : ∀ e ∈ es₂, 0 < e.monto ∧ aMinusculas e.tipo ∈ tiposValidos :=
    fun e he => hv e (hp.mem_iff.mpr he)
  have hperm : (es₁.map entradaATransaccion).Perm (es₂.map entradaATransaccion) :=
    hp.map entradaATransaccion
  rw [obtener_resumen_eq, obtener_resumen_eq,
    agregarVarias_de_validas es₁ LibroDiario.init hv,
    agregarVarias_de_validas es₂ LibroDiario.init hv₂]
  simp only [LibroDiario.init, List.nil_append]
  rw [(hperm.map ingresoParte).sum_eq, (hperm.map egresoParte).sum_eq]

theorem resumen_independiente_del_orden_witness :
    (LibroDiario.init.agregarVarias
        [⟨"a", "x", 5, "INGRESO"⟩, ⟨"b", "y", 3, "egreso"⟩]).obtener_resumen =
      (LibroDiario.init.agregarVarias
        [⟨"b", "y", 3, "egreso"⟩, ⟨"a", "x", 5, "INGRESO"⟩]).obtener_resumen :=
  resumen_independiente_del_orden
    [⟨"a", "x", 5, "INGRESO"⟩, ⟨"b", "y", 3, "egreso"⟩]
    [⟨"b", "y", 3, "egreso"⟩, ⟨"a", "x", 5, "INGRESO"⟩]
    (by decide) (List.Perm.swap _ _ _)

/-- C9: for every ledger state, reachable or not, the two totals of
`obtener_resumen` partition the whole stored sequence: their sum is the sum of
all stored amounts, because the loop sends every transaction whose kind is not
`ingreso` to `total_egresos` through its `else` branch. -/
theorem suma_total_particion (l : LibroDiario) :
    l.obtener_resumen.total_ingresos + l.obtener_resumen.total_egresos =
      (l.transacciones.map Transaccion.monto).sum ∧
    l.obtener_resumen.total_egresos =
      ((l.transacciones.filter fun t => ¬ t.tipo = "ingreso").map
        Transaccion.monto).sum := by
  rw [obtener_resumen_eq]
  exact ⟨sum_partes _, sum_egresoParte _⟩

/-- C10: on every reachable ledger both totals are nonnegative (sums of
strictly positive amounts), hence the net balance is at most the income
total. -/
theorem totales_no_negativos (l : LibroDiario) (h : Alcanzable l) :
    0 ≤ l.obtener_resumen.total_ingresos ∧
      0 ≤ l.obtener_resumen.total_egresos ∧
      l.obtener_resumen.balance_neto ≤ l.obtener_resumen.total_ingresos := by
  have hinv := invariante_de_alcanzable h
  rw [obtener_resumen_eq]
  have h1 : 0 ≤ (l.transacciones.map ingresoParte).sum := by
    apply List.sum_nonneg
    intro x hx
    obtain ⟨t, ht, rfl⟩ := List.mem_map.mp hx
    exact ingresoParte_nonneg (le_of_lt (hinv t ht).1)
  have h2 : 0 ≤ (l.transacciones.map egresoParte).sum := by
    apply List.sum_nonneg
    intro x hx
    obtain ⟨t, ht, rfl⟩ := List.mem_map.mp hx
    exact egresoParte_nonneg (le_of_lt (hinv t ht).1)
  refine ⟨h1, h2, ?_⟩
  dsimp only
  linarith

theorem totales_no_negativos_witness :
    0 ≤ (LibroDiario.mk [⟨"b", "y", 3, "egreso"⟩]).obtener_resumen.total_ingresos ∧
      0 ≤ (LibroDiario.mk [⟨"b", "y", 3, "egreso"⟩]).obtener_resumen.total_egresos ∧
      (LibroDiario.mk [⟨"b", "y", 3, "egreso"⟩]).obtener_resumen.balance_neto ≤
        (LibroDiario.mk [⟨"b", "y", 3, "egreso"⟩]).obtener_resumen.total_ingresos :=
  totales_no_negativos (LibroDiario.mk [⟨"b", "y", 3, "egreso"⟩])
    (Alcanzable.paso "b" "y" 3 "egreso" Alcanzable.inicial (by
      rw [agregar_eq_ok LibroDiario.init "b" "y" 3 "egreso" (by norm_num) (by decide)]
      simp [LibroDiario.init, show aMinusculas "egreso" = "egreso" from by decide]))

end SistemaContable
